import Mathlib

/-!
Shallow embedding of `envelope-addr-rs` (`src/lib.rs`): minimal SMTP
envelope address parsing.  Strings are modelled as `List Char`;
`Result<T, E>` as `Except E T`.  Every definition is translated from the
Rust source.
-/

namespace EnvelopeAddr

/-- Rust `char::is_whitespace` on the code point: the Unicode
`White_Space` property (U+0009–U+000D, U+0020, U+0085, U+00A0, U+1680,
U+2000–U+200A, U+2028, U+2029, U+202F, U+205F, U+3000). -/
def wsNat (n : Nat) : Bool :=
  decide ((9 ≤ n ∧ n ≤ 13) ∨ n = 32 ∨ n = 133 ∨ n = 160 ∨ n = 5760 ∨
    (8192 ≤ n ∧ n ≤ 8202) ∨ n = 8232 ∨ n = 8233 ∨ n = 8239 ∨ n = 8287 ∨
    n = 12288)

/-- Rust `char::is_whitespace`. -/
def isWhitespaceRust (c : Char) : Bool := wsNat c.toNat

/-- Rust `str::trim`: drop leading Unicode whitespace. -/
def trimLeft (s : List Char) : List Char := s.dropWhile isWhitespaceRust

/-- Rust `str::trim`: drop trailing Unicode whitespace. -/
def trimRight (s : List Char) : List Char :=
  (s.reverse.dropWhile isWhitespaceRust).reverse

/-- Rust `str::trim`: drop whitespace at both ends. -/
def trim (s : List Char) : List Char := trimRight (trimLeft s)

/-- Rust `str::strip_prefix("<")`: `some` of the rest iff the first
character is `<`. -/
def stripAngleOpen : List Char → Option (List Char)
  | [] => none
  | c :: cs => if c = '<' then some cs else none

/-- Rust `str::strip_suffix(">")`: `some` of the rest iff the last
character is `>`. -/
def stripAngleClose (t : List Char) : Option (List Char) :=
  match t.reverse with
  | [] => none
  | c :: cs => if c = '>' then some cs.reverse else none

/-- Rust `str::split_once("@")`: split at the first occurrence of `c`,
excluding the separator itself. -/
def split_once (c : Char) : List Char → Option (List Char × List Char)
  | [] => none
  | x :: xs =>
    if x = c then some ([], xs)
    else
      match split_once c xs with
      | some (l, r) => some (x :: l, r)
      | none => none

/-- Rust `char::to_ascii_lowercase`: add 32 to the code point of an ASCII
uppercase letter, leave every other character unchanged. -/
def lowerAsciiChar (c : Char) : Char :=
  if 65 ≤ c.toNat ∧ c.toNat ≤ 90 then Char.ofNat (c.toNat + 32) else c

/-- Rust `str::to_ascii_lowercase` applied character by character. -/
def to_ascii_lowercase (s : List Char) : List Char := s.map lowerAsciiChar

/-- The `Addr` struct of `lib.rs`: a parsed envelope address.
(`local` is a Lean keyword, hence the field name `localPart`.) -/
structure Addr where
  localPart : List Char
  domain : List Char
deriving DecidableEq

/-- The `AddrError` enum of `lib.rs`. -/
inductive AddrError where
  | Empty
  | MissingAt
  | InvalidBrackets
  | InvalidCharacter
  | Whitespace
deriving DecidableEq

/-- Lines 52–75 of `lib.rs`: the checks performed on the text remaining
after bracket handling, and construction of the `Addr`. -/
def checkContent (t : List Char) : Except AddrError Addr :=
  if t.any isWhitespaceRust then .error .Whitespace
  else if t.any (fun c => c = '<') || t.any (fun c => c = '>') then
    .error .InvalidBrackets
  else if t.isEmpty then .error .Empty
  else
    match split_once '@' t with
    | none => .error .MissingAt
    | some (l, d) =>
      if l.isEmpty || d.isEmpty then .error .Empty
      else if d.any (fun c => c = '@') then .error .InvalidCharacter
      else .ok ⟨l, to_ascii_lowercase d⟩

/-- Lines 35–51 of `lib.rs`: the bracket-stripping stage with its
`is_bracketed` flag.  Exactly one of: both brackets stripped, neither
present, or `InvalidBrackets`. -/
def stripBrackets (t : List Char) : Except AddrError (List Char) :=
  match stripAngleOpen t with
  | some t1 =>
    match stripAngleClose t1 with
    | some t2 => .ok t2
    | none => .error .InvalidBrackets
  | none =>
    match stripAngleClose t with
    | some _ => .error .InvalidBrackets
    | none => .ok t

/-- `Addr::parse_envelope` (lines 25–76 of `lib.rs`). -/
def parse_envelope (s : List Char) : Except AddrError Addr :=
  let t := trim s
  if t = ['<', '>'] then .ok ⟨[], []⟩
  else
    match stripBrackets t with
    | .ok t2 => checkContent t2
    | .error e => .error e

/-- `Addr::to_addr_spec`: render as `local@domain`. -/
def to_addr_spec (a : Addr) : List Char := a.localPart ++ '@' :: a.domain

/-- `Addr::is_null`: both fields empty. -/
def is_null (a : Addr) : Bool := a.localPart.isEmpty && a.domain.isEmpty

/-- `Addr::to_bracketed`: `<` ++ addr-spec ++ `>`. -/
def to_bracketed (a : Addr) : List Char := '<' :: (to_addr_spec a ++ ['>'])

/-- `Addr::with_domain`: same local part, replacement domain, no
validation. -/
def with_domain (a : Addr) (d : List Char) : Addr := ⟨a.localPart, d⟩

/-- `impl Display for Addr` (lines 109–117 of `lib.rs`): `<>` when null,
else `local@domain`. -/
def displayAddr (a : Addr) : List Char :=
  if is_null a then ['<', '>'] else a.localPart ++ '@' :: a.domain

/-- `impl FromStr for Addr` (lines 119–125 of `lib.rs`): delegates to
`parse_envelope`. -/
def from_str (s : List Char) : Except AddrError Addr := parse_envelope s

instance : DecidableEq (Except AddrError Addr) := fun x y =>
  match x, y with
  | .ok a, .ok b =>
    if h : a = b then isTrue (by rw [h]) else isFalse (by simp [h])
  | .error e, .error f =>
    if h : e = f then isTrue (by rw [h]) else isFalse (by simp [h])
  | .ok _, .error _ => isFalse (by simp)
  | .error _, .ok _ => isFalse (by simp)

/-- The documented data-model invariant: both fields non-empty, or both
empty. -/
def addrInvariant (a : Addr) : Prop :=
  (a.localPart ≠ [] ∧ a.domain ≠ []) ∨ (a.localPart = [] ∧ a.domain = [])

instance (a : Addr) : Decidable (addrInvariant a) := by
  unfold addrInvariant; infer_instance

/-! ### Character-level lemmas -/

theorem toNat_ofNat_valid (n : Nat) (h : n.isValidChar) :
    (Char.ofNat n).toNat = n := by
  simp [Char.ofNat, h, Char.ofNatAux, Char.toNat, UInt32.ofNat', UInt32.toNat,
    BitVec.toNat_ofNatLt]

theorem wsNat_eq_false_of_lower {n : Nat} (h1 : 97 ≤ n) (h2 : n ≤ 122) :
    wsNat n = false := by
  unfold wsNat
  rw [decide_eq_false_iff_not]
  omega

theorem lowerAsciiChar_cases (c : Char) :
    (65 ≤ c.toNat ∧ c.toNat ≤ 90 ∧ (lowerAsciiChar c).toNat = c.toNat + 32) ∨
    (¬(65 ≤ c.toNat ∧ c.toNat ≤ 90) ∧ lowerAsciiChar c = c) := by
  by_cases h : 65 ≤ c.toNat ∧ c.toNat ≤ 90
  · left
    refine ⟨h.1, h.2, ?_⟩
    unfold lowerAsciiChar
    rw [if_pos h]
    exact toNat_ofNat_valid _ (Or.inl (by omega))
  · right
    exact ⟨h, by unfold lowerAsciiChar; rw [if_neg h]⟩

theorem lowerAsciiChar_ws {c : Char} (h : isWhitespaceRust c = false) :
    isWhitespaceRust (lowerAsciiChar c) = false := by
  rcases lowerAsciiChar_cases c with ⟨h1, h2, h3⟩ | ⟨_, h3⟩
  · unfold isWhitespaceRust
    rw [h3]
    exact wsNat_eq_false_of_lower (by omega) (by omega)
  · rw [h3]; exact h

theorem lowerAsciiChar_ne_of_small {c x : Char} (hx : x.toNat < 97)
    (h : c ≠ x) : lowerAsciiChar c ≠ x := by
  rcases lowerAsciiChar_cases c with ⟨h1, h2, h3⟩ | ⟨_, h3⟩
  · intro he
    rw [he] at h3
    omega
  · rw [h3]; exact h

theorem lowerAsciiChar_idem (c : Char) :
    lowerAsciiChar (lowerAsciiChar c) = lowerAsciiChar c := by
  rcases lowerAsciiChar_cases c with ⟨h1, h2, h3⟩ | ⟨_, h3⟩
  · show (if 65 ≤ (lowerAsciiChar c).toNat ∧ (lowerAsciiChar c).toNat ≤ 90 then
        Char.ofNat ((lowerAsciiChar c).toNat + 32) else lowerAsciiChar c) =
      lowerAsciiChar c
    rw [if_neg (by omega)]
  · rw [h3, h3]

theorem to_ascii_lowercase_idem (d : List Char) :
    to_ascii_lowercase (to_ascii_lowercase d) = to_ascii_lowercase d := by
  unfold to_ascii_lowercase
  rw [List.map_map]
  exact List.map_congr_left (fun c _ => lowerAsciiChar_idem c)

/-! ### Trim, strip and split lemmas -/

theorem dropWhile_eq_self_of_all {p : Char → Bool} {l : List Char}
    (h : ∀ c ∈ l, p c = false) : l.dropWhile p = l := by
  cases l with
  | nil => rfl
  | cons x xs => simp [List.dropWhile_cons, h x (by simp)]

theorem trim_eq_self_of_all {l : List Char}
    (h : ∀ c ∈ l, isWhitespaceRust c = false) : trim l = l := by
  unfold trim trimRight trimLeft
  rw [dropWhile_eq_self_of_all h,
    dropWhile_eq_self_of_all (fun c hc => h c (List.mem_reverse.mp hc)),
    List.reverse_reverse]

theorem stripAngleOpen_cons_ne {x : Char} {xs : List Char} (h : x ≠ '<') :
    stripAngleOpen (x :: xs) = none := by
  simp [stripAngleOpen, h]

theorem stripAngleClose_append (t : List Char) :
    stripAngleClose (t ++ ['>']) = some t := by
  unfold stripAngleClose
  rw [List.reverse_append]
  simp

theorem stripAngleClose_of_ne {t : List Char}
    (h : ∀ c ∈ t, c ≠ '>') : stripAngleClose t = none := by
  unfold stripAngleClose
  cases ht : t.reverse with
  | nil => rfl
  | cons y ys =>
    have hy : y ∈ t := List.mem_reverse.mp (ht ▸ List.mem_cons_self y ys)
    simp [h y hy]

theorem split_once_eq {c : Char} : ∀ {t l r : List Char},
    split_once c t = some (l, r) → t = l ++ c :: r ∧ c ∉ l := by
  intro t
  induction t with
  | nil => intro l r h; simp [split_once] at h
  | cons x xs ih =>
    intro l r h
    by_cases hx : x = c
    · rw [split_once, if_pos hx] at h
      injection h with h
      rw [Prod.mk.injEq] at h
      rw [← h.1, ← h.2, hx]
      exact ⟨rfl, by simp⟩
    · rw [split_once, if_neg hx] at h
      cases hsp : split_once c xs with
      | none => rw [hsp] at h; exact absurd h (by simp)
      | some p =>
        rw [hsp] at h
        obtain ⟨l0, r0⟩ := p
        simp only at h
        injection h with h
        rw [Prod.mk.injEq] at h
        obtain ⟨he, hne⟩ := ih hsp
        rw [← h.1, ← h.2]
        constructor
        · rw [List.cons_append, he]
        · intro hm
          rcases List.mem_cons.mp hm with h1 | h1
          · exact hx h1.symm
          · exact hne h1

theorem split_once_append {c : Char} : ∀ {l : List Char} (r : List Char),
    c ∉ l → split_once c (l ++ c :: r) = some (l, r)
  | [], r, _ => by simp [split_once]
  | x :: xs, r, h => by
    have hx : x ≠ c := fun he => h (he ▸ List.mem_cons_self x xs)
    have hxs : c ∉ xs := fun hm => h (List.mem_cons_of_mem x hm)
    rw [List.cons_append, split_once, if_neg hx, split_once_append r hxs]

theorem any_eq_false_of_all {p : Char → Bool} {l : List Char}
    (h : ∀ c ∈ l, p c = false) : l.any p = false := by
  rw [List.any_eq_false]
  intro x hx
  simp [h x hx]

theorem all_of_any_eq_false {p : Char → Bool} {l : List Char}
    (h : l.any p = false) : ∀ c ∈ l, p c = false := by
  rw [List.any_eq_false] at h
  intro c hc
  simpa using h c hc

theorem stripAngleOpen_cons (r : List Char) :
    stripAngleOpen ('<' :: r) = some r := by
  simp [stripAngleOpen]

/-! ### `checkContent` characterisation -/

theorem checkContent_ok_elim {t : List Char} {a : Addr}
    (h : checkContent t = Except.ok a) :
    ∃ l d, t = l ++ '@' :: d ∧ '@' ∉ l ∧ '@' ∉ d ∧ l ≠ [] ∧ d ≠ [] ∧
      (∀ c ∈ t, isWhitespaceRust c = false) ∧
      (∀ c ∈ t, c ≠ '<') ∧ (∀ c ∈ t, c ≠ '>') ∧
      a = ⟨l, to_ascii_lowercase d⟩ := by
  unfold checkContent at h
  split at h
  · exact absurd h (by simp)
  next hws =>
  split at h
  · exact absurd h (by simp)
  next hbr =>
  split at h
  · exact absurd h (by simp)
  next hemp =>
  split at h
  · exact absurd h (by simp)
  next l d heq =>
  split at h
  · exact absurd h (by simp)
  next hld =>
  split at h
  · exact absurd h (by simp)
  next hda =>
  injection h with h
  obtain ⟨ht, hnl⟩ := split_once_eq heq
  rw [Bool.not_eq_true] at hws hda
  have hld2 : l ≠ [] ∧ d ≠ [] := by
    rw [Bool.not_eq_true, Bool.or_eq_false_iff] at hld
    constructor
    · intro he; rw [he] at hld; simp at hld
    · intro he; rw [he] at hld; simp at hld
  have hnd : '@' ∉ d := by
    intro hm
    have := all_of_any_eq_false hda '@' hm
    simp at this
  have hlt : ∀ c ∈ t, c ≠ '<' := by
    intro c hc he
    rw [Bool.not_eq_true, Bool.or_eq_false_iff] at hbr
    have := all_of_any_eq_false hbr.1 c hc
    rw [he] at this
    simp at this
  have hgt : ∀ c ∈ t, c ≠ '>' := by
    intro c hc he
    rw [Bool.not_eq_true, Bool.or_eq_false_iff] at hbr
    have := all_of_any_eq_false hbr.2 c hc
    rw [he] at this
    simp at this
  exact ⟨l, d, ht, hnl, hnd, hld2.1, hld2.2, all_of_any_eq_false hws,
    hlt, hgt, h.symm⟩

theorem checkContent_ok_intro {l d : List Char}
    (hl : l ≠ []) (hd : d ≠ [])
    (hws : ∀ c ∈ l ++ '@' :: d, isWhitespaceRust c = false)
    (hlt : ∀ c ∈ l ++ '@' :: d, c ≠ '<')
    (hgt : ∀ c ∈ l ++ '@' :: d, c ≠ '>')
    (hal : '@' ∉ l) (had : '@' ∉ d) :
    checkContent (l ++ '@' :: d) = Except.ok ⟨l, to_ascii_lowercase d⟩ := by
  unfold checkContent
  rw [if_neg (by simp [any_eq_false_of_all hws])]
  rw [if_neg (by
    simp only [Bool.or_eq_true, not_or]
    constructor
    · simp [any_eq_false_of_all (fun c hc => decide_eq_false (hlt c hc))]
    · simp [any_eq_false_of_all (fun c hc => decide_eq_false (hgt c hc))])]
  rw [if_neg (by simp)]
  rw [split_once_append d hal]
  have hany : d.any (fun c => decide (c = '@')) = false :=
    any_eq_false_of_all (fun c hc => decide_eq_false (fun he => had (he ▸ hc)))
  simp [hl, hd, hany]

/-! ### `stripBrackets` characterisation -/

theorem stripBrackets_no_brackets {t : List Char}
    (hlt : ∀ c ∈ t, c ≠ '<') (hgt : ∀ c ∈ t, c ≠ '>') :
    stripBrackets t = Except.ok t := by
  unfold stripBrackets
  cases t with
  | nil => rfl
  | cons x xs =>
    rw [stripAngleOpen_cons_ne (hlt x (by simp)), stripAngleClose_of_ne hgt]

theorem stripBrackets_both (mid : List Char) :
    stripBrackets ('<' :: (mid ++ ['>'])) = Except.ok mid := by
  unfold stripBrackets
  rw [stripAngleOpen_cons]
  dsimp only
  rw [stripAngleClose_append]

theorem stripBrackets_open_only {t : List Char}
    (hgt : ∀ c ∈ t, c ≠ '>') :
    stripBrackets ('<' :: t) = Except.error AddrError.InvalidBrackets := by
  unfold stripBrackets
  rw [stripAngleOpen_cons]
  dsimp only
  rw [stripAngleClose_of_ne hgt]

theorem stripBrackets_close_only {x : Char} {xs mid : List Char}
    (hx : x ≠ '<') (hshape : x :: xs = mid ++ ['>']) :
    stripBrackets (x :: xs) = Except.error AddrError.InvalidBrackets := by
  unfold stripBrackets
  rw [stripAngleOpen_cons_ne hx, hshape, stripAngleClose_append]

/-! ### `parse_envelope` characterisation -/

/-- The character-level facts holding of each field of a successfully
parsed non-null address. -/
def cleanChars (t : List Char) : Prop :=
  ∀ c ∈ t, isWhitespaceRust c = false ∧ c ≠ '<' ∧ c ≠ '>' ∧ c ≠ '@'

theorem parse_ok_elim {s : List Char} {a : Addr}
    (h : parse_envelope s = Except.ok a) :
    (a.localPart = [] ∧ a.domain = []) ∨
    (a.localPart ≠ [] ∧ a.domain ≠ [] ∧ cleanChars a.localPart ∧
      cleanChars a.domain ∧ to_ascii_lowercase a.domain = a.domain) := by
  simp only [parse_envelope] at h
  split at h
  · left
    injection h with h
    rw [← h]
    exact ⟨rfl, rfl⟩
  · split at h
    · next t2 hsb =>
      obtain ⟨l, d, ht, hnl, hnd, hl, hd, hws, hltc, hgtc, ha⟩ :=
        checkContent_ok_elim h
      right
      have hmel : ∀ c ∈ l, c ∈ t2 := fun c hc =>
        ht ▸ List.mem_append_left _ hc
      have hmed : ∀ c ∈ d, c ∈ t2 := fun c hc =>
        ht ▸ List.mem_append_right _ (List.mem_cons_of_mem _ hc)
      rw [ha]
      refine ⟨hl, by simp [to_ascii_lowercase, hd], ?_, ?_, ?_⟩
      · intro c hc
        exact ⟨hws c (hmel c hc), hltc c (hmel c hc), hgtc c (hmel c hc),
          fun he => hnl (he ▸ hc)⟩
      · intro c hc
        obtain ⟨c0, hc0, he0⟩ := List.mem_map.mp hc
        rw [← he0]
        refine ⟨lowerAsciiChar_ws (hws c0 (hmed c0 hc0)), ?_, ?_, ?_⟩
        · exact lowerAsciiChar_ne_of_small (by decide) (hltc c0 (hmed c0 hc0))
        · exact lowerAsciiChar_ne_of_small (by decide) (hgtc c0 (hmed c0 hc0))
        · exact lowerAsciiChar_ne_of_small (by decide)
            (fun he => hnd (he ▸ hc0))
      · exact to_ascii_lowercase_idem d
    · next e hsb => exact absurd h (by simp)

theorem cleanChars_concat {l d : List Char} (hpl : cleanChars l)
    (hpd : cleanChars d) :
    ∀ c ∈ l ++ '@' :: d,
      isWhitespaceRust c = false ∧ c ≠ '<' ∧ c ≠ '>' := by
  intro c hc
  rcases List.mem_append.mp hc with hcl | hcr
  · exact ⟨(hpl c hcl).1, (hpl c hcl).2.1, (hpl c hcl).2.2.1⟩
  · rcases List.mem_cons.mp hcr with he | hcd
    · rw [he]
      exact ⟨by decide, by decide, by decide⟩
    · exact ⟨(hpd c hcd).1, (hpd c hcd).2.1, (hpd c hcd).2.2.1⟩

theorem cleanChars_not_mem_at {l : List Char} (hpl : cleanChars l) :
    '@' ∉ l := fun hm => (hpl '@' hm).2.2.2 rfl

theorem parse_plain_ok {l d : List Char} (hl : l ≠ []) (hd : d ≠ [])
    (hpl : cleanChars l) (hpd : cleanChars d)
    (hfix : to_ascii_lowercase d = d) :
    parse_envelope (l ++ '@' :: d) = Except.ok ⟨l, d⟩ := by
  have hall := cleanChars_concat hpl hpd
  have hws : ∀ c ∈ l ++ '@' :: d, isWhitespaceRust c = false :=
    fun c hc => (hall c hc).1
  have hltc : ∀ c ∈ l ++ '@' :: d, c ≠ '<' := fun c hc => (hall c hc).2.1
  have hgtc : ∀ c ∈ l ++ '@' :: d, c ≠ '>' := fun c hc => (hall c hc).2.2
  simp only [parse_envelope]
  rw [trim_eq_self_of_all hws]
  rw [if_neg (by
    intro he
    have hm : '@' ∈ l ++ '@' :: d :=
      List.mem_append_right _ (List.mem_cons_self _ _)
    rw [he] at hm
    simp at hm)]
  rw [stripBrackets_no_brackets hltc hgtc]
  dsimp only
  rw [checkContent_ok_intro hl hd hws hltc hgtc (cleanChars_not_mem_at hpl)
    (cleanChars_not_mem_at hpd), hfix]

theorem parse_bracketed_ok {l d : List Char} (hl : l ≠ []) (hd : d ≠ [])
    (hpl : cleanChars l) (hpd : cleanChars d)
    (hfix : to_ascii_lowercase d = d) :
    parse_envelope ('<' :: ((l ++ '@' :: d) ++ ['>'])) = Except.ok ⟨l, d⟩ := by
  have hall := cleanChars_concat hpl hpd
  have hws : ∀ c ∈ '<' :: ((l ++ '@' :: d) ++ ['>']),
      isWhitespaceRust c = false := by
    intro c hc
    rcases List.mem_cons.mp hc with he | hc2
    · rw [he]; decide
    · rcases List.mem_append.mp hc2 with hc3 | hc3
      · exact (hall c hc3).1
      · rw [List.mem_singleton.mp hc3]; decide
  simp only [parse_envelope]
  rw [trim_eq_self_of_all hws]
  rw [if_neg (by
    intro he
    have hlen := congrArg List.length he
    simp at hlen
    have : l.length = 0 := by omega
    exact hl (List.length_eq_zero.mp this))]
  rw [stripBrackets_both]
  dsimp only
  rw [checkContent_ok_intro hl hd (fun c hc => (hall c hc).1)
    (fun c hc => (hall c hc).2.1) (fun c hc => (hall c hc).2.2)
    (cleanChars_not_mem_at hpl) (cleanChars_not_mem_at hpd), hfix]

theorem parse_open_only {l d : List Char}
    (hpl : cleanChars l) (hpd : cleanChars d) :
    parse_envelope ('<' :: (l ++ '@' :: d)) =
      Except.error AddrError.InvalidBrackets := by
  have hall := cleanChars_concat hpl hpd
  have hws : ∀ c ∈ '<' :: (l ++ '@' :: d), isWhitespaceRust c = false := by
    intro c hc
    rcases List.mem_cons.mp hc with he | hc2
    · rw [he]; decide
    · exact (hall c hc2).1
  simp only [parse_envelope]
  rw [trim_eq_self_of_all hws]
  rw [if_neg (by
    intro he
    have hm : '@' ∈ '<' :: (l ++ '@' :: d) :=
      List.mem_cons_of_mem _
        (List.mem_append_right _ (List.mem_cons_self _ _))
    rw [he] at hm
    simp at hm)]
  rw [stripBrackets_open_only (fun c hc => (hall c hc).2.2)]

theorem parse_close_only {l d : List Char} (hl : l ≠ [])
    (hpl : cleanChars l) (hpd : cleanChars d) :
    parse_envelope ((l ++ '@' :: d) ++ ['>']) =
      Except.error AddrError.InvalidBrackets := by
  have hall := cleanChars_concat hpl hpd
  have hws : ∀ c ∈ (l ++ '@' :: d) ++ ['>'], isWhitespaceRust c = false := by
    intro c hc
    rcases List.mem_append.mp hc with hc2 | hc2
    · exact (hall c hc2).1
    · rw [List.mem_singleton.mp hc2]; decide
  simp only [parse_envelope]
  rw [trim_eq_self_of_all hws]
  cases l with
  | nil => exact absurd rfl hl
  | cons x xs =>
    have hx : x ≠ '<' := (hpl x (List.mem_cons_self _ _)).2.1
    rw [if_neg (by
      intro he
      have hm : '@' ∈ ((x :: xs) ++ '@' :: d) ++ ['>'] :=
        List.mem_append_left _
          (List.mem_append_right _ (List.mem_cons_self _ _))
      rw [he] at hm
      simp at hm)]
    simp only [List.cons_append]
    rw [stripBrackets_close_only hx
      (show x :: ((xs ++ '@' :: d) ++ ['>']) =
        (x :: (xs ++ '@' :: d)) ++ ['>'] by simp)]

/-! ### Claim theorems -/

/-- C1 counterexample: `with_domain` performs no validation, so applying
it with an empty replacement domain to the (parse-produced) address
`a@b` yields a half-empty Address, refuting the claim that every
`with_domain` result satisfies the invariant. -/
theorem C1_counterexample :
    parse_envelope ("a@b".toList) = Except.ok ⟨['a'], ['b']⟩ ∧
    ¬ addrInvariant (with_domain ⟨['a'], ['b']⟩ []) := by decide

/-- C1 amended: every Address returned by `parse_envelope` satisfies the
invariant (both fields non-empty or both empty); `with_domain d`
produces an invariant-satisfying Address exactly when the emptiness of
the replacement domain matches the emptiness of the local part. -/
theorem C1_invariant :
    (∀ s a, parse_envelope s = Except.ok a → addrInvariant a) ∧
    (∀ (a : Addr) (d : List Char),
      addrInvariant (with_domain a d) ↔ (a.localPart = [] ↔ d = [])) := by
  constructor
  · intro s a h
    rcases parse_ok_elim h with ⟨h1, h2⟩ | ⟨h1, h2, _⟩
    · exact Or.inr ⟨h1, h2⟩
    · exact Or.inl ⟨h1, h2⟩
  · intro a d
    unfold addrInvariant with_domain
    constructor
    · rintro (⟨h1, h2⟩ | ⟨h1, h2⟩) <;> simp only at h1 h2 <;> simp [h1, h2]
    · intro hiff
      by_cases hl : a.localPart = []
      · exact Or.inr ⟨hl, hiff.mp hl⟩
      · exact Or.inl ⟨hl, fun hd => hl (hiff.mpr hd)⟩

/-- C1 witness: the amended invariant theorem applied to the concrete
parse of `a@b`. -/
theorem C1_witness : addrInvariant ⟨['a'], ['b']⟩ :=
  C1_invariant.1 ("a@b".toList) ⟨['a'], ['b']⟩ (by decide)

/-- C2 counterexample: `parse_envelope "<  >"` fails with `Whitespace`,
not with `Empty` as the claim states. -/
theorem C2_counterexample :
    parse_envelope ("<  >".toList) = Except.error AddrError.Whitespace ∧
    parse_envelope ("<  >".toList) ≠ Except.error AddrError.Empty := by
  decide

/-- C2 amended: an angle-bracket pair enclosing only whitespace fails
with `Whitespace`: the whitespace check (step 4) runs before the
empty-after-stripping check (step 6) and intercepts such inputs. -/
theorem C2_bracketed_whitespace :
    parse_envelope ("<  >".toList) = Except.error AddrError.Whitespace := by
  decide

/-- C3: for every input whose parse succeeds with a non-null Address
`a`, re-parsing `a.to_addr_spec()` succeeds and returns `a` again. -/
theorem C3_roundtrip (s : List Char) (a : Addr)
    (h : parse_envelope s = Except.ok a) (hn : is_null a = false) :
    parse_envelope (to_addr_spec a) = Except.ok a := by
  rcases parse_ok_elim h with ⟨h1, h2⟩ | ⟨h1, h2, hpl, hpd, hfix⟩
  · rw [is_null, h1, h2] at hn
    simp at hn
  · exact parse_plain_ok h1 h2 hpl hpd hfix

/-- C3 witness: the round-trip theorem applied to the concrete parse of
`a@b`. -/
theorem C3_witness :
    parse_envelope (to_addr_spec ⟨['a'], ['b']⟩) = Except.ok ⟨['a'], ['b']⟩ :=
  C3_roundtrip ("a@b".toList) ⟨['a'], ['b']⟩ (by decide) (by decide)

/-- C4: `"<>"`, `" <> "` and `"\t<>\n"` all parse to the same null
Address; it satisfies `is_null`, its addr-spec form is `"@"`, and its
canonical display form is `"<>"`. -/
theorem C4_null_canonicalization :
    parse_envelope ("<>".toList) = Except.ok ⟨[], []⟩ ∧
    parse_envelope (" <> ".toList) = Except.ok ⟨[], []⟩ ∧
    parse_envelope ("\t<>\n".toList) = Except.ok ⟨[], []⟩ ∧
    is_null ⟨[], []⟩ = true ∧
    to_addr_spec ⟨[], []⟩ = "@".toList ∧
    displayAddr ⟨[], []⟩ = "<>".toList := by
  decide

/-- C5 counterexample: `"Name <alice@example.com>"` is rejected with
`InvalidBrackets` (the trailing `>` with no stripped opening `<`
triggers the bracket-asymmetry check first), not with `Whitespace` as
the claim states. -/
theorem C5_counterexample :
    parse_envelope ("Name <alice@example.com>".toList) =
      Except.error AddrError.InvalidBrackets ∧
    parse_envelope ("Name <alice@example.com>".toList) ≠
      Except.error AddrError.Whitespace := by
  decide

/-- C5 amended: the ten rejection cases with their actual reasons;
identical to the claim except that `"Name <alice@example.com>"` fails
with `InvalidBrackets` rather than `Whitespace`. -/
theorem C5_rejections :
    parse_envelope ("".toList) = Except.error AddrError.Empty ∧
    parse_envelope ("local@".toList) = Except.error AddrError.Empty ∧
    parse_envelope ("@domain".toList) = Except.error AddrError.Empty ∧
    parse_envelope ("<@example.com>".toList) = Except.error AddrError.Empty ∧
    parse_envelope ("missingatsign".toList) =
      Except.error AddrError.MissingAt ∧
    parse_envelope ("Name <alice@example.com>".toList) =
      Except.error AddrError.InvalidBrackets ∧
    parse_envelope ("<alice@example.com".toList) =
      Except.error AddrError.InvalidBrackets ∧
    parse_envelope ("alice@example.com>".toList) =
      Except.error AddrError.InvalidBrackets ∧
    parse_envelope ("<<alice@example.com>>".toList) =
      Except.error AddrError.InvalidBrackets ∧
    parse_envelope ("alice@@example.com".toList) =
      Except.error AddrError.InvalidCharacter := by
  decide

/-- C6: the concrete case-handling examples, plus the general fact that
the domain-lowering map changes no character outside the ASCII uppercase
range (in particular no non-ASCII character). -/
theorem C6_case_handling :
    parse_envelope ("LOCAL@Example.COM".toList) =
      Except.ok ⟨"LOCAL".toList, "example.com".toList⟩ ∧
    parse_envelope ("δοκιμή@MÜNICH.Example.COM".toList) =
      Except.ok ⟨"δοκιμή".toList, "mÜnich.example.com".toList⟩ ∧
    (∀ c : Char, c.toNat < 65 ∨ 90 < c.toNat → lowerAsciiChar c = c) := by
  refine ⟨by decide, by decide, ?_⟩
  intro c hc
  rcases lowerAsciiChar_cases c with ⟨h1, h2, _⟩ | ⟨_, h3⟩
  · omega
  · exact h3

/-- C6 witness: the general unchanged-character fact applied to the
non-ASCII letter `Ü`. -/
theorem C6_witness : lowerAsciiChar 'Ü' = 'Ü' :=
  C6_case_handling.2.2 'Ü' (by decide)

/-- C7 counterexample: with `local = " a"` and `domain = "b"`,
`parse_envelope(local ++ "@" ++ domain)` succeeds with a non-null
Address (trimming eats the space), yet the bracketed form fails with
`Whitespace`, refuting the claim as quantified over raw strings. -/
theorem C7_counterexample :
    parse_envelope ((" a" ++ "@" ++ "b").toList) =
      Except.ok ⟨['a'], ['b']⟩ ∧
    is_null ⟨['a'], ['b']⟩ = false ∧
    parse_envelope (("<" ++ " a" ++ "@" ++ "b" ++ ">").toList) =
      Except.error AddrError.Whitespace := by
  decide

/-- C7 amended: bracket symmetry for the fields of any successfully
parsed non-null Address `a`: wrapping `a.local ++ "@" ++ a.domain` in a
full bracket pair re-parses to `a`, while either half-bracketed form
fails with `InvalidBrackets`. -/
theorem C7_bracket_symmetry (s : List Char) (a : Addr)
    (h : parse_envelope s = Except.ok a) (hn : is_null a = false) :
    parse_envelope ('<' :: ((a.localPart ++ '@' :: a.domain) ++ ['>'])) =
      Except.ok a ∧
    parse_envelope ('<' :: (a.localPart ++ '@' :: a.domain)) =
      Except.error AddrError.InvalidBrackets ∧
    parse_envelope ((a.localPart ++ '@' :: a.domain) ++ ['>']) =
      Except.error AddrError.InvalidBrackets := by
  rcases parse_ok_elim h with ⟨h1, h2⟩ | ⟨h1, h2, hpl, hpd, hfix⟩
  · rw [is_null, h1, h2] at hn
    simp at hn
  · exact ⟨parse_bracketed_ok h1 h2 hpl hpd hfix,
      parse_open_only hpl hpd, parse_close_only h1 hpl hpd⟩

/-- C7 witness: the amended bracket-symmetry theorem applied to the
concrete parse of `a@b`. -/
theorem C7_witness :
    parse_envelope ('<' :: (((['a'] : List Char) ++ '@' :: ['b']) ++ ['>'])) =
      Except.ok ⟨['a'], ['b']⟩ ∧
    parse_envelope ('<' :: ((['a'] : List Char) ++ '@' :: ['b'])) =
      Except.error AddrError.InvalidBrackets ∧
    parse_envelope (((['a'] : List Char) ++ '@' :: ['b']) ++ ['>']) =
      Except.error AddrError.InvalidBrackets :=
  C7_bracket_symmetry ("a@b".toList) ⟨['a'], ['b']⟩ (by decide) (by decide)

/-- C8: `FromStr` delegates to `parse_envelope`, so both entry points
agree on every input. -/
theorem C8_from_str_eq (s : List Char) : from_str s = parse_envelope s :=
  rfl

/-- C9: `to_bracketed` always wraps the addr-spec form in angle
brackets; on the null Address it therefore yields `"<@>"`, which differs
from the null-aware canonical display form `"<>"`. -/
theorem C9_to_bracketed :
    (∀ a : Addr, to_bracketed a = '<' :: (to_addr_spec a ++ ['>'])) ∧
    to_bracketed ⟨[], []⟩ = "<@>".toList ∧
    displayAddr ⟨[], []⟩ = "<>".toList ∧
    to_bracketed ⟨[], []⟩ ≠ displayAddr ⟨[], []⟩ :=
  ⟨fun _ => rfl, by decide, by decide, by decide⟩

/-- C10: re-parsing the canonical display form of any successfully
parsed Address (null included) yields the same Address. -/
theorem C10_display_roundtrip (s : List Char) (a : Addr)
    (h : parse_envelope s = Except.ok a) :
    parse_envelope (displayAddr a) = Except.ok a := by
  rcases parse_ok_elim h with ⟨h1, h2⟩ | ⟨h1, h2, hpl, hpd, hfix⟩
  · have hnull : a = ⟨[], []⟩ := by
      obtain ⟨l, d⟩ := a
      simp only at h1 h2
      rw [h1, h2]
    rw [hnull]
    decide
  · have hn : is_null a = false := by
      rw [is_null]
      simp [h1]
    rw [displayAddr, if_neg (by rw [hn]; simp)]
    exact parse_plain_ok h1 h2 hpl hpd hfix

/-- C10 witness: the display round-trip theorem applied to the concrete
parse of the null form. -/
theorem C10_witness :
    parse_envelope (displayAddr ⟨[], []⟩) = Except.ok ⟨[], []⟩ :=
  C10_display_roundtrip ("<>".toList) ⟨[], []⟩ (by decide)

end EnvelopeAddr
